import Mathlib

/-!
# Verification of the PIA desktop ICMP latency prober (`posix_ping.cpp`)

Shallow embedding of `PosixPing::calcChecksum`, `PosixPing::sendEchoRequest`
and `PosixPing::onReadyRead` from `posix_ping.cpp`, together with proofs of
the specified properties.

Conventions of the embedding:
* Byte buffers are `List Nat`, each element one byte value (callers of the
  theorems may instantiate with values `< 256`; the algorithms are modelled
  on the byte values exactly as the code manipulates them).
* The target platforms of this code (x86-64 / arm64 Linux and macOS) are
  little-endian; a `quint16` loaded from two consecutive bytes `a, b` reads
  `a + 256 * b`, and `htons`/`ntohs`/`htonl`/`ntohl` swap byte order.
* Machine integers are `Nat` with explicit `% 2 ^ w` where overflow can
  occur (the 32-bit checksum accumulator, the 16-bit sequence counter).
* Reads from the received datagram in `onReadyRead` are modelled with
  checked access (`l[i]?` / `byteSlice`, both `Option`-valued); an access
  past the number of bytes read yields `none` for the whole parse, so
  "no out-of-bounds access" is exactly "the parse function is `isSome`".
-/

namespace PosixPing

/-- The 32-bit accumulator modulus (`quint32` arithmetic). -/
def accMod : Nat := 4294967296

/-- The complete 16-bit little-endian words of a byte buffer, as read by the
`const quint16 *words` loop of `PosixPing::calcChecksum` (`len / 2` words; a
trailing odd byte is not part of any word). -/
def leWords : List Nat → List Nat
  | a :: b :: rest => (a + 256 * b) :: leWords rest
  | _ => []

/-- The accumulation loop of `PosixPing::calcChecksum`: add each word into a
32-bit accumulator (wrapping `quint32` addition). -/
def accumWords (accum : Nat) : List Nat → Nat
  | [] => accum
  | w :: ws => accumWords ((accum + w) % accMod) ws

/-- Value of the accumulator of `PosixPing::calcChecksum` after the word loop
and the trailing-odd-byte addition (`if(len % 2) accum += data[len-1];`). -/
def checksumAccum (data : List Nat) : Nat :=
  let a := accumWords 0 (leWords data)
  if data.length % 2 = 1 then (a + data.getLastD 0) % accMod else a

/-- One carry-fold step of `PosixPing::calcChecksum`:
`accum = (accum & 0xFFFF) + (accum >> 16)`. -/
def foldCarry (accum : Nat) : Nat := accum % 65536 + accum / 65536

/-- `PosixPing::calcChecksum`: RFC 1071 one's-complement checksum.  Sum the
16-bit words (and a trailing odd byte) into a 32-bit accumulator, fold the
carries in twice, and return the complement of the low 16 bits
(`~static_cast<quint16>(accum)`). -/
def calcChecksum (data : List Nat) : Nat :=
  65535 - foldCarry (foldCarry (checksumAccum data)) % 65536

example : calcChecksum [0, 0] = 65535 := by decide
example : calcChecksum [255, 255] = 0 := by decide
example : calcChecksum [1, 2, 3] = 65535 - (1 + 2 * 256 + 3) := by decide

/-- `accumWords` is plain summation reduced modulo `2 ^ 32`. -/
theorem accumWords_eq_sum (ws : List Nat) :
    ∀ a : Nat, accumWords (a % accMod) ws = (a + ws.sum) % accMod := by
  induction ws with
  | nil => intro a; simp [accumWords]
  | cons w t ih =>
      intro a
      have h1 : (a % accMod + w) % accMod = (a + w) % accMod := by
        unfold accMod; omega
      calc accumWords ((a % accMod + w) % accMod) t
          = accumWords ((a + w) % accMod) t := by rw [h1]
        _ = (a + w + t.sum) % accMod := ih (a + w)
        _ = (a + (w :: t).sum) % accMod := by simp [Nat.add_assoc]

theorem accumWords_zero (ws : List Nat) : accumWords 0 ws = ws.sum % accMod := by
  have := accumWords_eq_sum ws 0
  simpa using this

/-- Splitting the word scan at an even (word-aligned) boundary. -/
theorem leWords_append : ∀ (pre rest : List Nat), pre.length % 2 = 0 →
    leWords (pre ++ rest) = leWords pre ++ leWords rest
  | [], rest, _ => rfl
  | [a], rest, h => by simp at h
  | a :: b :: t, rest, h => by
      have ht : t.length % 2 = 0 := by simp [List.length_cons] at h; omega
      simp only [List.cons_append, leWords]
      exact congrArg (List.cons (a + 256 * b)) (leWords_append t rest ht)

/-- A trailing odd byte is not part of any complete 16-bit word: dropping it
leaves the word list unchanged. -/
theorem leWords_dropLast : ∀ (l : List Nat), l.length % 2 = 1 →
    leWords l.dropLast = leWords l
  | [], h => by simp at h
  | [a], _ => rfl
  | [a, b], h => by simp at h
  | a :: b :: c :: t, h => by
      have ht : (c :: t).length % 2 = 1 := by
        simp [List.length_cons] at h ⊢; omega
      simp only [List.dropLast_cons₂, leWords]
      exact congrArg (List.cons (a + 256 * b)) (leWords_dropLast (c :: t) ht)

theorem calcChecksum_le (data : List Nat) : calcChecksum data ≤ 65535 :=
  Nat.sub_le 65535 _

/-- The accumulator of a buffer with an aligned 16-bit field holding bytes
`x, y`: the word sum splits around the field word `x + 256 * y`. -/
theorem checksumAccum_field (pre post : List Nat) (x y : Nat)
    (hpre : pre.length % 2 = 0) (hpost : post.length % 2 = 0) :
    checksumAccum (pre ++ x :: y :: post) =
      ((leWords pre).sum + (x + 256 * y) + (leWords post).sum) % accMod := by
  have hlen : (pre ++ x :: y :: post).length % 2 = 0 := by
    simp only [List.length_append, List.length_cons]
    omega
  unfold checksumAccum
  rw [if_neg (by omega)]
  rw [leWords_append pre (x :: y :: post) hpre]
  have hxy : leWords (x :: y :: post) = (x + 256 * y) :: leWords post := rfl
  rw [hxy, accumWords_zero]
  simp [List.sum_append, Nat.add_assoc, Nat.add_comm, Nat.add_left_comm]

/-- After carry-folding a value below `2 ^ 32` and complementing, adding the
complement back to the value gives a positive multiple of `65535` (at most
`65535 * 65537 = 2 ^ 32 - 1`). -/
theorem checksum_arith (a : Nat) (h : a < accMod) :
    ∃ k, 1 ≤ k ∧ k ≤ 65537 ∧
      a + (65535 - foldCarry (foldCarry a) % 65536) = 65535 * k := by
  have hq : a / 65536 ≤ 65535 := by unfold accMod at h; omega
  have hf1 : foldCarry a = a / 65536 + a % 65536 := by unfold foldCarry; omega
  by_cases hc : a / 65536 + a % 65536 < 65536
  · refine ⟨a / 65536 + 1, by omega, by omega, ?_⟩
    have hf2 : foldCarry (foldCarry a) = a / 65536 + a % 65536 := by
      rw [hf1]; unfold foldCarry; omega
    rw [hf2]; omega
  · refine ⟨a / 65536 + 2, by omega, by omega, ?_⟩
    have hf2 : foldCarry (foldCarry a) = a / 65536 + a % 65536 - 65535 := by
      rw [hf1]; unfold foldCarry; omega
    rw [hf2]; omega

/-- Carry-folding a positive multiple of `65535` that fits the 32-bit
accumulator always lands on `65535` exactly. -/
theorem foldCarry_multiple (k : Nat) (h1 : 1 ≤ k) (h2 : k ≤ 65537) :
    foldCarry (foldCarry (65535 * k)) % 65536 = 65535 := by
  unfold foldCarry
  by_cases hk : k ≤ 65536
  · have hd : 65535 * k / 65536 = k - 1 := by omega
    have hm : 65535 * k % 65536 = 65536 - k := by omega
    rw [hd, hm]
    omega
  · have hk37 : k = 65537 := by omega
    subst hk37
    decide

/-- C2: for every buffer of even length whose 16-bit checksum field is zero,
storing `calcChecksum` of the buffer into that field (native little-endian
16-bit store, as `pEcho->checksum = calcChecksum(...)` does) and re-running
`calcChecksum` over the whole modified buffer yields zero.  The field is an
aligned 16-bit word: the buffer is `pre ++ [0, 0] ++ post` with `pre` (and
hence `post`) of even length. -/
theorem calcChecksum_roundtrip (pre post : List Nat)
    (hpre : pre.length % 2 = 0) (hpost : post.length % 2 = 0) :
    calcChecksum (pre ++ calcChecksum (pre ++ 0 :: 0 :: post) % 256 ::
      calcChecksum (pre ++ 0 :: 0 :: post) / 256 :: post) = 0 := by
  set c := calcChecksum (pre ++ 0 :: 0 :: post) with hc
  set S := (leWords pre).sum + (0 + 256 * 0) + (leWords post).sum with hS
  have hacc0 : checksumAccum (pre ++ 0 :: 0 :: post) = S % accMod :=
    checksumAccum_field pre post 0 0 hpre hpost
  have hcval : c = 65535 - foldCarry (foldCarry (S % accMod)) % 65536 := by
    rw [hc]; unfold calcChecksum; rw [hacc0]
  obtain ⟨k, hk1, hk2, hk⟩ := checksum_arith (S % accMod)
    (Nat.mod_lt _ (by unfold accMod; omega))
  have hacc1 : checksumAccum (pre ++ c % 256 :: c / 256 :: post) =
      (S + c) % accMod := by
    rw [checksumAccum_field pre post (c % 256) (c / 256) hpre hpost]
    have hfield : c % 256 + 256 * (c / 256) = c := by omega
    have : (leWords pre).sum + (c % 256 + 256 * (c / 256)) + (leWords post).sum
        = S + c := by rw [hfield, hS]; ring
    rw [this]
  have hsum : (S + c) % accMod = 65535 * k := by
    have hcle : c ≤ 65535 := hc ▸ calcChecksum_le (pre ++ 0 :: 0 :: post)
    have h1 : (S + c) % accMod = (S % accMod + c) % accMod := by
      conv_lhs => rw [Nat.add_mod]
      rw [Nat.mod_eq_of_lt (show c < accMod by unfold accMod; omega)]
    rw [h1, hcval, hk]
    exact Nat.mod_eq_of_lt (by unfold accMod; omega)
  unfold calcChecksum
  rw [hacc1, hsum, foldCarry_multiple k hk1 hk2]

theorem calcChecksum_roundtrip_witness :
    ([8, 0] : List Nat).length % 2 = 0 ∧ ([1, 2] : List Nat).length % 2 = 0 ∧
    calcChecksum ([8, 0] ++ calcChecksum ([8, 0] ++ 0 :: 0 :: [1, 2]) % 256 ::
      calcChecksum ([8, 0] ++ 0 :: 0 :: [1, 2]) / 256 :: [1, 2]) = 0 :=
  ⟨by decide, by decide, calcChecksum_roundtrip [8, 0] [1, 2] (by decide) (by decide)⟩

/-- C9: for a buffer of odd length, `calcChecksum` adds the final trailing
byte into the accumulator exactly once, as a standalone value, on top of the
sum of all complete 16-bit words (the words of the even-length prefix
`data.dropLast`). -/
theorem calcChecksum_oddTrailing (data : List Nat) (hodd : data.length % 2 = 1) :
    checksumAccum data =
      ((leWords data.dropLast).sum + data.getLastD 0) % accMod ∧
    data.dropLast.length % 2 = 0 ∧
    calcChecksum data = 65535 - foldCarry (foldCarry
      (((leWords data.dropLast).sum + data.getLastD 0) % accMod)) % 65536 := by
  have hacc : checksumAccum data =
      ((leWords data.dropLast).sum + data.getLastD 0) % accMod := by
    unfold checksumAccum
    rw [if_pos hodd, leWords_dropLast data hodd, accumWords_zero]
    unfold accMod
    omega
  refine ⟨hacc, ?_, ?_⟩
  · rw [List.length_dropLast]; omega
  · unfold calcChecksum
    rw [hacc]

theorem calcChecksum_oddTrailing_witness :
    ([1, 2, 3] : List Nat).length % 2 = 1 ∧
    checksumAccum [1, 2, 3] =
      ((leWords ([1, 2, 3] : List Nat).dropLast).sum +
        ([1, 2, 3] : List Nat).getLastD 0) % accMod :=
  ⟨by decide, (calcChecksum_oddTrailing [1, 2, 3] (by decide)).1⟩

/-! ## The sender: `PosixPing::sendEchoRequest`

The prober state is the data members of `PosixPing`: `_identifier` (random
`quint16`, fixed at construction), `_nextSequence` (`quint16` counter) and
`_icmpSocket` (modelled by whether the raw socket opened successfully).

Modelled from the spec: the `IcmpEcho` struct is declared in
`posix_ping.h`, which is not among the sources; per the spec it is the
standard ICMP echo header — `type`, `code` (one byte each), `checksum`,
`identifier`, `sequence` (16 bits each), 8 bytes in all, so
`sizeof(IcmpEcho) = 8` and `sizeof(struct ip) = 20`.

The byte-level model targets the Linux build (little-endian host,
`TimestampField = quint64`, `ip_off = htons(IP_DF)`); the timestamp width is
kept as a parameter `tsSize` where the claims need both platforms. -/

/-- Data members of `PosixPing` relevant to the embedding. -/
structure PingState where
  identifier : Nat
  nextSequence : Nat
  icmpSocketOpen : Bool
  deriving DecidableEq, Repr

/-- Per-call environment of one `sendEchoRequest` call: the arguments plus
the outcomes of the system calls the code makes (`gettimeofday`, the
`IP_MTU_DISCOVER` setsockopt, and `sendto`). -/
structure SendEnv where
  address : Nat
  payloadSize : Nat
  allowFragment : Bool
  sec : Nat
  usec : Nat
  dfConfigOk : Bool
  sentResult : Int
  deriving DecidableEq, Repr

/-- The 20 IP header bytes as stored by `sendEchoRequest`:
`ip_v = 4`, `ip_hl = 5` (low/high nibbles of byte 0 on a little-endian
host), `ip_tos = 0`, `ip_len = rawPacketSize` (native little-endian store of
a 16-bit field — no `htons`, the kernel expects host order here),
`ip_id = htons(_identifier)`, `ip_off = htons(0)` or `htons(IP_DF)`,
`ip_ttl = 255`, `ip_p = 1`, `ip_sum = 0`, `ip_src = 0`,
`ip_dst = htonl(address)`. -/
def ipHeaderBytes (identifier payloadSize address : Nat)
    (allowFragment : Bool) : List Nat :=
  [0x45, 0,
   (28 + payloadSize) % 65536 % 256, (28 + payloadSize) % 65536 / 256,
   identifier % 65536 / 256, identifier % 256,
   if allowFragment then 0 else 0x40, 0,
   255, 1,
   0, 0,
   0, 0, 0, 0,
   address / 16777216 % 256, address / 65536 % 256,
   address / 256 % 256, address % 256]

/-- The 8 ICMP echo header bytes as stored by `sendEchoRequest`:
`type = 8`, `code = 0`, `checksum = ck` (native little-endian store),
`identifier = htons(_identifier)`, `sequence = htons(_nextSequence)`. -/
def icmpEchoBytes (identifier seq ck : Nat) : List Nat :=
  [8, 0, ck % 256, ck / 256 % 256,
   identifier % 65536 / 256, identifier % 256,
   seq % 65536 / 256, seq % 256]

/-- Byte `j` of the timestamp prefix of the payload: two consecutive
`TimestampField` values (seconds then microseconds), each stored native
little-endian in `tsSize` bytes. -/
def timestampByte (sec usec tsSize j : Nat) : Nat :=
  if j < tsSize then sec / 256 ^ j % 256 else usec / 256 ^ (j - tsSize) % 256

/-- The payload region content after `sendEchoRequest` finishes writing: the
filler loop stores `packet[sizeof(IcmpEcho)+i] = i` (truncated to a byte),
then the two timestamp fields overwrite the first `2 * tsSize` bytes. -/
def payloadBytes (payloadSize sec usec tsSize : Nat) : List Nat :=
  (List.range payloadSize).map fun j =>
    if j < 2 * tsSize then timestampByte sec usec tsSize j else j % 256

/-- The checksum stored into the ICMP header: computed last, over the ICMP
header plus payload only (`calcChecksum(packet, packetSize)` with
`packetSize = sizeof(IcmpEcho) + payloadSize`), with the checksum field
still zero. -/
def echoChecksum (identifier seq payloadSize sec usec tsSize : Nat) : Nat :=
  calcChecksum (icmpEchoBytes identifier seq 0 ++
    payloadBytes payloadSize sec usec tsSize)

/-- The complete raw datagram built by `sendEchoRequest`:
IP header, ICMP echo header and payload (`rawPacketSize = 20 + 8 +
payloadSize` bytes). -/
def buildRawPacket (identifier seq payloadSize address sec usec tsSize : Nat)
    (allowFragment : Bool) : List Nat :=
  ipHeaderBytes identifier payloadSize address allowFragment ++
  icmpEchoBytes identifier seq
    (echoChecksum identifier seq payloadSize sec usec tsSize) ++
  payloadBytes payloadSize sec usec tsSize

/-- `TimestampField` is `quint64` on Linux. -/
def linuxTsSize : Nat := 8

/-- `PosixPing::sendEchoRequest` (Linux path): if the raw socket never
opened, fail immediately; otherwise build the packet (consuming one sequence
number: `++_nextSequence`, a wrapping `quint16` increment), then fail if the
DF setsockopt fails (`allowFragment` false only), if `sendto` errs, or if it
wrote fewer bytes than the whole packet; otherwise succeed.  Returns the new
state, the `bool` result, and the packet if construction was reached. -/
def sendEchoRequest (st : PingState) (e : SendEnv) :
    PingState × Bool × Option (List Nat) :=
  if !st.icmpSocketOpen then (st, false, none)
  else
    let raw := buildRawPacket st.identifier st.nextSequence e.payloadSize
      e.address e.sec e.usec linuxTsSize e.allowFragment
    let st2 : PingState := { st with nextSequence := (st.nextSequence + 1) % 65536 }
    if !e.allowFragment && !e.dfConfigOk then (st2, false, some raw)
    else if e.sentResult < 0 then (st2, false, some raw)
    else if e.sentResult ≠ (28 + e.payloadSize : Int) then (st2, false, some raw)
    else (st2, true, some raw)

/-- A sequence of `sendEchoRequest` calls, threading the prober state;
returns the final state and the per-call results. -/
def sendMany (st : PingState) :
    List SendEnv → PingState × List (Bool × Option (List Nat))
  | [] => (st, [])
  | e :: es =>
      let r := sendEchoRequest st e
      let rest := sendMany r.1 es
      (rest.1, (r.2.1, r.2.2) :: rest.2)

/-- Offsets into `rawPacket` written by the IP-header field stores. -/
def ipWriteOffsets : List Nat := List.range 20

/-- Offsets into `rawPacket` written by the ICMP echo header field stores
(`packet = pRawPacket + sizeof(struct ip)`). -/
def icmpWriteOffsets : List Nat := (List.range 8).map fun k => 20 + k

/-- Offsets written by the filler loop `packet[sizeof(IcmpEcho)+i] = i` for
`0 ≤ i < payloadSize`. -/
def fillerWriteOffsets (payloadSize : Nat) : List Nat :=
  (List.range payloadSize).map fun i => 28 + i

/-- Offsets written by the two unconditional `TimestampField` stores at the
start of the payload region (`2 * sizeof(TimestampField)` bytes starting at
`packet[sizeof(IcmpEcho)]`). -/
def timestampWriteOffsets (tsSize : Nat) : List Nat :=
  (List.range (2 * tsSize)).map fun k => 28 + k

/-- Every byte-write offset of the packet-construction phase of
`sendEchoRequest`, in program order. -/
def constructionWriteOffsets (payloadSize tsSize : Nat) : List Nat :=
  ipWriteOffsets ++ icmpWriteOffsets ++ fillerWriteOffsets payloadSize ++
    timestampWriteOffsets tsSize

/-- On a state whose socket is open, `sendEchoRequest` always moves to the
same successor state: only `nextSequence` changes, by one wrapping
increment, whatever the transmission outcome. -/
theorem sendEchoRequest_fst (st : PingState) (e : SendEnv)
    (h : st.icmpSocketOpen = true) :
    (sendEchoRequest st e).1 =
      { st with nextSequence := (st.nextSequence + 1) % 65536 } := by
  unfold sendEchoRequest
  rw [h]
  simp only [Bool.not_true, Bool.false_eq_true, if_false]
  split
  · rfl
  · split
    · rfl
    · split <;> rfl

/-- C7: every `sendEchoRequest` call that reaches packet construction (open
socket) increments `nextSequence` exactly once — also when the DF
configuration, the send, or the byte count subsequently fails — and no other
prober state changes: `identifier` and the socket stay as they were. -/
theorem sendEchoRequest_incrementsOnce (st : PingState) (e : SendEnv)
    (h : st.icmpSocketOpen = true) :
    (sendEchoRequest st e).1.nextSequence = (st.nextSequence + 1) % 65536 ∧
    (sendEchoRequest st e).1.identifier = st.identifier ∧
    (sendEchoRequest st e).1.icmpSocketOpen = st.icmpSocketOpen := by
  rw [sendEchoRequest_fst st e h, h]
  exact ⟨rfl, rfl, rfl⟩

theorem sendEchoRequest_incrementsOnce_witness :
    (PingState.mk 7 3 true).icmpSocketOpen = true ∧
    (sendEchoRequest ⟨7, 3, true⟩ ⟨1, 0, true, 0, 0, true, -1⟩).1.nextSequence
      = (3 + 1) % 65536 := by
  refine ⟨rfl, ?_⟩
  exact (sendEchoRequest_incrementsOnce ⟨7, 3, true⟩ ⟨1, 0, true, 0, 0, true, -1⟩ rfl).1

/-- C8: with the raw socket never opened, every send fails immediately: no
packet is constructed, `nextSequence` is not consumed, and the state —
including the closed socket — is unchanged, so the same holds for every
subsequent send over the prober's lifetime. -/
theorem sendEchoRequest_socketClosed (st : PingState) (es : List SendEnv)
    (h : st.icmpSocketOpen = false) :
    (sendMany st es).1 = st ∧
    ∀ r ∈ (sendMany st es).2, r = (false, (none : Option (List Nat))) := by
  induction es with
  | nil => exact ⟨rfl, by intro r hr; simp [sendMany] at hr⟩
  | cons e t ih =>
      have h1 : sendEchoRequest st e = (st, false, none) := by
        unfold sendEchoRequest
        rw [h]
        rfl
      refine ⟨?_, ?_⟩
      · show (sendMany (sendEchoRequest st e).1 t).1 = st
        rw [h1]
        exact ih.1
      · intro r hr
        simp only [sendMany, h1, List.mem_cons] at hr
        rcases hr with hr | hr
        · exact hr
        · exact ih.2 r hr

theorem sendEchoRequest_socketClosed_witness :
    (PingState.mk 9 0 false).icmpSocketOpen = false ∧
    (sendMany ⟨9, 0, false⟩ [⟨1, 0, true, 0, 0, true, 28⟩]).1 = ⟨9, 0, false⟩ ∧
    ∀ r ∈ (sendMany ⟨9, 0, false⟩ [⟨1, 0, true, 0, 0, true, 28⟩]).2,
      r = (false, (none : Option (List Nat))) := by
  have h := sendEchoRequest_socketClosed ⟨9, 0, false⟩
    [⟨1, 0, true, 0, 0, true, 28⟩] rfl
  exact ⟨rfl, h.1, h.2⟩

/-- Iterating sends from an open socket: the sequence counter advances by
the number of calls, modulo `65536`. -/
theorem sendMany_replicate (n : Nat) : ∀ (st : PingState) (e : SendEnv),
    st.icmpSocketOpen = true → st.nextSequence < 65536 →
    (sendMany st (List.replicate n e)).1 =
      ⟨st.identifier, (st.nextSequence + n) % 65536, true⟩ := by
  induction n with
  | zero =>
      intro st e hopen hseq
      obtain ⟨i, s, o⟩ := st
      subst hopen
      have hs2 : s < 65536 := hseq
      have hs0 : (s + 0) % 65536 = s := by omega
      rw [hs0]
      rfl
  | succ n ih =>
      intro st e hopen hseq
      have hstep := sendEchoRequest_fst st e hopen
      show (sendMany (sendEchoRequest st e).1 (List.replicate n e)).1 = _
      rw [hstep]
      rw [ih { st with nextSequence := (st.nextSequence + 1) % 65536 } e hopen
        (Nat.mod_lt _ (by omega))]
      have hmod : ((st.nextSequence + 1) % 65536 + n) % 65536 =
          (st.nextSequence + (n + 1)) % 65536 := by omega
      rw [hmod]

/-- C6: starting from any 16-bit sequence value, 65536 construction-reaching
sends return `nextSequence` to its initial value (wrapping modulo 65536),
and a further send increments it again. -/
theorem nextSequence_wraparound (id s : Nat) (e : SendEnv) (hs : s < 65536) :
    (sendMany ⟨id, s, true⟩ (List.replicate 65536 e)).1.nextSequence = s ∧
    (sendMany ⟨id, s, true⟩ (List.replicate 65537 e)).1.nextSequence =
      (s + 1) % 65536 := by
  rw [sendMany_replicate 65536 ⟨id, s, true⟩ e rfl hs,
      sendMany_replicate 65537 ⟨id, s, true⟩ e rfl hs]
  constructor
  · show (s + 65536) % 65536 = s
    omega
  · show (s + 65537) % 65536 = (s + 1) % 65536
    omega

theorem nextSequence_wraparound_witness :
    3 < 65536 ∧
    (sendMany ⟨1, 3, true⟩
      (List.replicate 65536 ⟨1, 0, true, 0, 0, true, 28⟩)).1.nextSequence = 3 :=
  ⟨by omega, (nextSequence_wraparound 1 3 ⟨1, 0, true, 0, 0, true, 28⟩
    (by omega)).1⟩

/-- C10: the two timestamp stores write `2 * sizeof(TimestampField)` bytes
(16 on Linux, 8 on macOS) at the start of the payload region regardless of
`payloadSize`.  Every write of packet construction stays inside the
`20 + 8 + payloadSize`-byte buffer exactly when
`payloadSize ≥ 2 * sizeof(TimestampField)`; for any smaller `payloadSize`
some timestamp byte is written past the end of the buffer. -/
theorem timestampWrite_bounds (payloadSize tsSize : Nat) (ht : 0 < tsSize) :
    (timestampWriteOffsets tsSize).length = 2 * tsSize ∧
    (2 * tsSize ≤ payloadSize →
      ∀ o ∈ constructionWriteOffsets payloadSize tsSize, o < 28 + payloadSize) ∧
    (payloadSize < 2 * tsSize →
      ∃ o ∈ timestampWriteOffsets tsSize, 28 + payloadSize ≤ o) := by
  refine ⟨by simp [timestampWriteOffsets], ?_, ?_⟩
  · intro hle o ho
    simp only [constructionWriteOffsets, ipWriteOffsets, icmpWriteOffsets,
      fillerWriteOffsets, timestampWriteOffsets, List.mem_append,
      List.mem_map, List.mem_range] at ho
    rcases ho with ((h0 | ⟨k, hk, rfl⟩) | ⟨i, hi, rfl⟩) | ⟨k, hk, rfl⟩ <;> omega
  · intro hlt
    refine ⟨28 + payloadSize, ?_, Nat.le_refl _⟩
    simp only [timestampWriteOffsets, List.mem_map, List.mem_range]
    exact ⟨payloadSize, by omega, rfl⟩

theorem timestampWrite_bounds_witness :
    0 < 8 ∧
    (0 < 2 * 8 →
      ∃ o ∈ timestampWriteOffsets 8, 28 + 0 ≤ o) :=
  ⟨by omega, (timestampWrite_bounds 0 8 (by omega)).2.2⟩

/-- C5: every `sendEchoRequest` call with an open socket constructs the
datagram with IP fields version 4, header-length nibble 5, total length
`20 + 8 + payloadSize` (native-order 16-bit field), TTL 255, protocol 1,
identification = prober identifier (wire big-endian), destination = the
target address (wire big-endian); and ICMP fields type 8, code 0,
identifier = prober identifier, sequence = current `nextSequence` (both wire
big-endian), with the checksum field (native-order store) computed last by
`calcChecksum` over the ICMP header plus payload only, checksum field
pre-zeroed. -/
theorem sendEchoRequest_packetFields (st : PingState) (e : SendEnv)
    (hopen : st.icmpSocketOpen = true) (hid : st.identifier < 65536)
    (hseq : st.nextSequence < 65536) (haddr : e.address < 4294967296)
    (hlen : 28 + e.payloadSize < 65536) :
    (sendEchoRequest st e).2.2 = some (buildRawPacket st.identifier
      st.nextSequence e.payloadSize e.address e.sec e.usec linuxTsSize
      e.allowFragment) ∧
    ∀ raw, raw = buildRawPacket st.identifier st.nextSequence e.payloadSize
        e.address e.sec e.usec linuxTsSize e.allowFragment →
      raw.getD 0 0 / 16 = 4 ∧
      raw.getD 0 0 % 16 = 5 ∧
      raw.getD 2 0 + 256 * raw.getD 3 0 = 28 + e.payloadSize ∧
      raw.getD 8 0 = 255 ∧
      raw.getD 9 0 = 1 ∧
      256 * raw.getD 4 0 + raw.getD 5 0 = st.identifier ∧
      ((raw.getD 16 0 * 256 + raw.getD 17 0) * 256 + raw.getD 18 0) * 256 +
        raw.getD 19 0 = e.address ∧
      raw.getD 20 0 = 8 ∧
      raw.getD 21 0 = 0 ∧
      256 * raw.getD 24 0 + raw.getD 25 0 = st.identifier ∧
      256 * raw.getD 26 0 + raw.getD 27 0 = st.nextSequence ∧
      raw.getD 22 0 + 256 * raw.getD 23 0 =
        calcChecksum (icmpEchoBytes st.identifier st.nextSequence 0 ++
          payloadBytes e.payloadSize e.sec e.usec linuxTsSize) ∧
      raw.length = 28 + e.payloadSize := by
  constructor
  · unfold sendEchoRequest
    rw [hopen]
    simp only [Bool.not_true, Bool.false_eq_true, if_false]
    split
    · rfl
    · split
      · rfl
      · split <;> rfl
  · intro raw hraw
    subst hraw
    have h0 : (buildRawPacket st.identifier st.nextSequence e.payloadSize
        e.address e.sec e.usec linuxTsSize e.allowFragment).getD 0 0 = 69 := rfl
    have h2 : (buildRawPacket st.identifier st.nextSequence e.payloadSize
        e.address e.sec e.usec linuxTsSize e.allowFragment).getD 2 0 =
        (28 + e.payloadSize) % 65536 % 256 := rfl
    have h3 : (buildRawPacket st.identifier st.nextSequence e.payloadSize
        e.address e.sec e.usec linuxTsSize e.allowFragment).getD 3 0 =
        (28 + e.payloadSize) % 65536 / 256 := rfl
    have h4 : (buildRawPacket st.identifier st.nextSequence e.payloadSize
        e.address e.sec e.usec linuxTsSize e.allowFragment).getD 4 0 =
        st.identifier % 65536 / 256 := rfl
    have h5 : (buildRawPacket st.identifier st.nextSequence e.payloadSize
        e.address e.sec e.usec linuxTsSize e.allowFragment).getD 5 0 =
        st.identifier % 256 := rfl
    have h16 : (buildRawPacket st.identifier st.nextSequence e.payloadSize
        e.address e.sec e.usec linuxTsSize e.allowFragment).getD 16 0 =
        e.address / 16777216 % 256 := rfl
    have h17 : (buildRawPacket st.identifier st.nextSequence e.payloadSize
        e.address e.sec e.usec linuxTsSize e.allowFragment).getD 17 0 =
        e.address / 65536 % 256 := rfl
    have h18 : (buildRawPacket st.identifier st.nextSequence e.payloadSize
        e.address e.sec e.usec linuxTsSize e.allowFragment).getD 18 0 =
        e.address / 256 % 256 := rfl
    have h19 : (buildRawPacket st.identifier st.nextSequence e.payloadSize
        e.address e.sec e.usec linuxTsSize e.allowFragment).getD 19 0 =
        e.address % 256 := rfl
    have h22 : (buildRawPacket st.identifier st.nextSequence e.payloadSize
        e.address e.sec e.usec linuxTsSize e.allowFragment).getD 22 0 =
        echoChecksum st.identifier st.nextSequence e.payloadSize e.sec e.usec
          linuxTsSize % 256 := rfl
    have h23 : (buildRawPacket st.identifier st.nextSequence e.payloadSize
        e.address e.sec e.usec linuxTsSize e.allowFragment).getD 23 0 =
        echoChecksum st.identifier st.nextSequence e.payloadSize e.sec e.usec
          linuxTsSize / 256 % 256 := rfl
    have h24 : (buildRawPacket st.identifier st.nextSequence e.payloadSize
        e.address e.sec e.usec linuxTsSize e.allowFragment).getD 24 0 =
        st.identifier % 65536 / 256 := rfl
    have h25 : (buildRawPacket st.identifier st.nextSequence e.payloadSize
        e.address e.sec e.usec linuxTsSize e.allowFragment).getD 25 0 =
        st.identifier % 256 := rfl
    have h26 : (buildRawPacket st.identifier st.nextSequence e.payloadSize
        e.address e.sec e.usec linuxTsSize e.allowFragment).getD 26 0 =
        st.nextSequence % 65536 / 256 := rfl
    have h27 : (buildRawPacket st.identifier st.nextSequence e.payloadSize
        e.address e.sec e.usec linuxTsSize e.allowFragment).getD 27 0 =
        st.nextSequence % 256 := rfl
    have hck : echoChecksum st.identifier st.nextSequence e.payloadSize e.sec
        e.usec linuxTsSize ≤ 65535 := by
      unfold echoChecksum
      exact calcChecksum_le _
    have hckdef : echoChecksum st.identifier st.nextSequence e.payloadSize
        e.sec e.usec linuxTsSize =
        calcChecksum (icmpEchoBytes st.identifier st.nextSequence 0 ++
          payloadBytes e.payloadSize e.sec e.usec linuxTsSize) := rfl
    refine ⟨by rw [h0], by rw [h0], by rw [h2, h3]; omega, rfl, rfl,
      by rw [h4, h5]; omega, by rw [h16, h17, h18, h19]; omega, rfl, rfl,
      by rw [h24, h25]; omega, by rw [h26, h27]; omega,
      by rw [h22, h23, ← hckdef]; omega, ?_⟩
    simp [buildRawPacket, ipHeaderBytes, icmpEchoBytes, payloadBytes]
    omega

theorem sendEchoRequest_packetFields_witness :
    ((PingState.mk 258 3 true).icmpSocketOpen = true ∧ 258 < 65536 ∧
      3 < 65536 ∧ 167772161 < 4294967296 ∧ 28 + 16 < 65536) ∧
    (sendEchoRequest ⟨258, 3, true⟩
      ⟨167772161, 16, true, 11, 22, true, 44⟩).2.2 =
      some (buildRawPacket 258 3 16 167772161 11 22 linuxTsSize true) := by
  refine ⟨⟨rfl, by omega, by omega, by omega, by omega⟩, ?_⟩
  exact (sendEchoRequest_packetFields ⟨258, 3, true⟩
    ⟨167772161, 16, true, 11, 22, true, 44⟩ rfl (by decide) (by decide)
    (by decide) (by decide)).1

/-! ## The reply listener: `PosixPing::onReadyRead`

The input is the sequence of bytes `recv` placed in the buffer (`read`
bytes; the local 2048-byte array past `read` is uninitialized and must never
be touched).  Every field read from the datagram goes through checked access
(`l[i]?`, `byteSlice`); an out-of-range access makes the whole parse
`none`.  The code under scrutiny never produces `none` — that is the
out-of-bounds-safety theorem. -/

/-- The `qWarning` messages `onReadyRead` can log, in source order. -/
inductive PingWarning
  | shortPacket
  | badVersion
  | badHeaderLength
  | nonIcmpProtocol
  | corruptPacket
  deriving DecidableEq, Repr

/-- Result of one `onReadyRead` wake-up: the `receivedReply` emission (with
the source address, host byte order) if any, and the warnings logged. -/
structure RecvOutcome where
  event : Option Nat
  warnings : List PingWarning
  deriving DecidableEq, Repr

/-- Checked view of `len` bytes starting `start` bytes into the read buffer
(the argument pair `packet.data() + headerBytes, read - headerBytes` passed
to `calcChecksum`). -/
def byteSlice (pkt : List Nat) (start len : Nat) : Option (List Nat) :=
  if start + len ≤ pkt.length then some ((pkt.drop start).take len) else none

/-- `PosixPing::onReadyRead`, parsing one received datagram of
`read = pkt.length` bytes.  Checks in source order: minimum IPv4 header
size, version nibble, header-length nibble (`(version_ihl & 0x0F) * 4`,
rejected if `< 20`, past the read, or leaving fewer than
`sizeof(IcmpEcho) = 8` bytes), protocol; then the ICMP checksum over the
ICMP segment (nonzero logs a warning but does not abort), then the silent
type/code/identifier filter; finally emits the reply with the source
address (`ntohl(pIpHdr->src)`, bytes 12–15 wire big-endian). -/
def onReadyRead (identifier : Nat) (pkt : List Nat) : Option RecvOutcome := do
  let read := pkt.length
  if read < 20 then return ⟨none, [.shortPacket]⟩
  let versionIhl ← pkt[0]?
  if versionIhl / 16 ≠ 4 then return ⟨none, [.badVersion]⟩
  let headerBytes := versionIhl % 16 * 4
  if headerBytes < 20 ∨ read < headerBytes ∨ read - headerBytes < 8 then
    return ⟨none, [.badHeaderLength]⟩
  let protocol ← pkt[9]?
  if protocol ≠ 1 then return ⟨none, [.nonIcmpProtocol]⟩
  let icmpSeg ← byteSlice pkt headerBytes (read - headerBytes)
  let src0 ← pkt[12]?
  let src1 ← pkt[13]?
  let src2 ← pkt[14]?
  let src3 ← pkt[15]?
  let warns := if calcChecksum icmpSeg ≠ 0 then [PingWarning.corruptPacket]
    else []
  let icmpType ← pkt[headerBytes]?
  let icmpCode ← pkt[headerBytes + 1]?
  let idHi ← pkt[headerBytes + 4]?
  let idLo ← pkt[headerBytes + 5]?
  if icmpType ≠ 0 ∨ icmpCode ≠ 0 ∨ idHi * 256 + idLo ≠ identifier then
    return ⟨none, warns⟩
  return ⟨some (src0 * 16777216 + src1 * 65536 + src2 * 256 + src3), warns⟩

example : onReadyRead 5 [] = some ⟨none, [.shortPacket]⟩ := by decide

/-- Total description of the parse (every read expressed with the default-
valued accessor `List.getD`); the bridge theorem below shows `onReadyRead`
never takes a checked access out of range, so it agrees with this
description on every input. -/
def recvSpec (identifier : Nat) (pkt : List Nat) : RecvOutcome :=
  let read := pkt.length
  if read < 20 then ⟨none, [.shortPacket]⟩
  else if pkt.getD 0 0 / 16 ≠ 4 then ⟨none, [.badVersion]⟩
  else
    let headerBytes := pkt.getD 0 0 % 16 * 4
    if headerBytes < 20 ∨ read < headerBytes ∨ read - headerBytes < 8 then
      ⟨none, [.badHeaderLength]⟩
    else if pkt.getD 9 0 ≠ 1 then ⟨none, [.nonIcmpProtocol]⟩
    else
      let warns := if calcChecksum ((pkt.drop headerBytes).take
          (read - headerBytes)) ≠ 0 then [PingWarning.corruptPacket] else []
      if pkt.getD headerBytes 0 ≠ 0 ∨ pkt.getD (headerBytes + 1) 0 ≠ 0 ∨
          pkt.getD (headerBytes + 4) 0 * 256 + pkt.getD (headerBytes + 5) 0
            ≠ identifier then ⟨none, warns⟩
      else ⟨some (pkt.getD 12 0 * 16777216 + pkt.getD 13 0 * 65536 +
        pkt.getD 14 0 * 256 + pkt.getD 15 0), warns⟩

/-- A checked byte read under its guard: within the read length, `l[i]?`
returns the byte. -/
theorem getD_some (pkt : List Nat) (i : Nat) (h : i < pkt.length) :
    pkt[i]? = some (pkt.getD i 0) := by
  rw [List.getElem?_eq_getElem h, @List.getD_eq_getElem _ pkt 0 i h]

/-- Every checked access of `onReadyRead` is guarded by an earlier length
check, on every input: the parse never goes out of bounds and equals the
total description `recvSpec`. -/
theorem onReadyRead_eq_recvSpec (identifier : Nat) (pkt : List Nat) :
    onReadyRead identifier pkt = some (recvSpec identifier pkt) := by
  unfold onReadyRead recvSpec
  by_cases h20 : pkt.length < 20
  · simp only [h20, if_true]
    rfl
  · have e0 : pkt[0]? = some (pkt.getD 0 0) := by
      rw [List.getElem?_eq_getElem (by omega), List.getD_eq_getElem pkt 0 (by omega)]
    have e9 : pkt[9]? = some (pkt.getD 9 0) := by
      rw [List.getElem?_eq_getElem (by omega), List.getD_eq_getElem pkt 0 (by omega)]
    simp only [h20, if_false, e0, e9, Option.bind_eq_bind, Option.some_bind,
      Option.pure_def]
    by_cases hv : pkt.getD 0 0 / 16 ≠ 4
    · rw [if_pos hv, if_pos hv]
    · rw [if_neg hv, if_neg hv]
      by_cases hh : pkt.getD 0 0 % 16 * 4 < 20 ∨
          pkt.length < pkt.getD 0 0 % 16 * 4 ∨
          pkt.length - pkt.getD 0 0 % 16 * 4 < 8
      · rw [if_pos hh, if_pos hh]
      · rw [if_neg hh, if_neg hh]
        push_neg at hh
        obtain ⟨hh1, hh2, hh3⟩ := hh
        by_cases hp : pkt.getD 9 0 ≠ 1
        · rw [if_pos hp, if_pos hp]
        · rw [if_neg hp, if_neg hp]
          have eslice : byteSlice pkt (pkt.getD 0 0 % 16 * 4)
              (pkt.length - pkt.getD 0 0 % 16 * 4) =
              some ((pkt.drop (pkt.getD 0 0 % 16 * 4)).take
                (pkt.length - pkt.getD 0 0 % 16 * 4)) := by
            unfold byteSlice
            rw [if_pos (by omega)]
          have e12 : pkt[12]? = some (pkt.getD 12 0) :=
            getD_some pkt 12 (by omega)
          have e13 : pkt[13]? = some (pkt.getD 13 0) :=
            getD_some pkt 13 (by omega)
          have e14 : pkt[14]? = some (pkt.getD 14 0) :=
            getD_some pkt 14 (by omega)
          have e15 : pkt[15]? = some (pkt.getD 15 0) :=
            getD_some pkt 15 (by omega)
          have ehb0 : pkt[pkt.getD 0 0 % 16 * 4]? =
              some (pkt.getD (pkt.getD 0 0 % 16 * 4) 0) :=
            getD_some pkt (pkt.getD 0 0 % 16 * 4) (by omega)
          have ehb1 : pkt[pkt.getD 0 0 % 16 * 4 + 1]? =
              some (pkt.getD (pkt.getD 0 0 % 16 * 4 + 1) 0) :=
            getD_some pkt (pkt.getD 0 0 % 16 * 4 + 1) (by omega)
          have ehb4 : pkt[pkt.getD 0 0 % 16 * 4 + 4]? =
              some (pkt.getD (pkt.getD 0 0 % 16 * 4 + 4) 0) :=
            getD_some pkt (pkt.getD 0 0 % 16 * 4 + 4) (by omega)
          have ehb5 : pkt[pkt.getD 0 0 % 16 * 4 + 5]? =
              some (pkt.getD (pkt.getD 0 0 % 16 * 4 + 5) 0) :=
            getD_some pkt (pkt.getD 0 0 % 16 * 4 + 5) (by omega)
          simp only [eslice, e12, e13, e14, e15, ehb0, ehb1, ehb4, ehb5,
            Option.some_bind]
          by_cases hf : pkt.getD (pkt.getD 0 0 % 16 * 4) 0 ≠ 0 ∨
              pkt.getD (pkt.getD 0 0 % 16 * 4 + 1) 0 ≠ 0 ∨
              pkt.getD (pkt.getD 0 0 % 16 * 4 + 4) 0 * 256 +
                pkt.getD (pkt.getD 0 0 % 16 * 4 + 5) 0 ≠ identifier
          · rw [if_pos hf, if_pos hf]
          · rw [if_neg hf, if_neg hf]

/-- C1: the parse never reads out of bounds on any input (first conjunct:
every checked access succeeds), and a buffer shorter than 20 bytes, or with
version nibble ≠ 4, or with header-length nibble encoding fewer than 20
bytes, or with the header length past the bytes read, or with fewer than the
8 ICMP echo header bytes left after the IP header, is rejected with no
`receivedReply` emission. -/
theorem onReadyRead_rejectsMalformed (identifier : Nat) (pkt : List Nat) :
    (onReadyRead identifier pkt).isSome = true ∧
    (pkt.length < 20 ∨ pkt.getD 0 0 / 16 ≠ 4 ∨ pkt.getD 0 0 % 16 * 4 < 20 ∨
        pkt.length < pkt.getD 0 0 % 16 * 4 ∨
        pkt.length - pkt.getD 0 0 % 16 * 4 < 8 →
      (onReadyRead identifier pkt).map RecvOutcome.event = some none) := by
  rw [onReadyRead_eq_recvSpec]
  refine ⟨rfl, ?_⟩
  intro h
  have hev : (recvSpec identifier pkt).event = none := by
    simp only [recvSpec]
    split_ifs <;> first | rfl | (exfalso; omega)
  simp [hev]

theorem onReadyRead_rejectsMalformed_witness :
    (onReadyRead 0 [69]).isSome = true ∧
    (([69] : List Nat).length < 20 ∨ ([69] : List Nat).getD 0 0 / 16 ≠ 4 ∨
      ([69] : List Nat).getD 0 0 % 16 * 4 < 20 ∨
      ([69] : List Nat).length < ([69] : List Nat).getD 0 0 % 16 * 4 ∨
      ([69] : List Nat).length - ([69] : List Nat).getD 0 0 % 16 * 4 < 8) ∧
    (onReadyRead 0 [69]).map RecvOutcome.event = some none :=
  ⟨(onReadyRead_rejectsMalformed 0 [69]).1, by decide,
    (onReadyRead_rejectsMalformed 0 [69]).2 (by decide)⟩

/-- C4: a datagram that passes the length, version, header-length and
protocol checks but whose ICMP checksum validation is nonzero gets the
corruption warning logged, yet processing continues: when type, code and
identifier match, the `receivedReply` event still fires, carrying the source
address. -/
theorem onReadyRead_checksumWarnOnly (identifier : Nat) (pkt : List Nat)
    (h1 : 20 ≤ pkt.length)
    (h2 : pkt.getD 0 0 / 16 = 4)
    (h3 : 20 ≤ pkt.getD 0 0 % 16 * 4)
    (h4 : pkt.getD 0 0 % 16 * 4 ≤ pkt.length)
    (h5 : 8 ≤ pkt.length - pkt.getD 0 0 % 16 * 4)
    (h6 : pkt.getD 9 0 = 1)
    (h7 : calcChecksum ((pkt.drop (pkt.getD 0 0 % 16 * 4)).take
      (pkt.length - pkt.getD 0 0 % 16 * 4)) ≠ 0)
    (h8 : pkt.getD (pkt.getD 0 0 % 16 * 4) 0 = 0)
    (h9 : pkt.getD (pkt.getD 0 0 % 16 * 4 + 1) 0 = 0)
    (h10 : pkt.getD (pkt.getD 0 0 % 16 * 4 + 4) 0 * 256 +
      pkt.getD (pkt.getD 0 0 % 16 * 4 + 5) 0 = identifier) :
    onReadyRead identifier pkt = some ⟨some (pkt.getD 12 0 * 16777216 +
      pkt.getD 13 0 * 65536 + pkt.getD 14 0 * 256 + pkt.getD 15 0),
      [PingWarning.corruptPacket]⟩ := by
  rw [onReadyRead_eq_recvSpec]
  simp only [recvSpec]
  rw [if_neg (by omega), if_neg (by omega), if_neg (by omega),
    if_neg (by omega), if_pos h7, if_neg (by omega)]

theorem onReadyRead_checksumWarnOnly_witness :
    onReadyRead 258
        [69, 0, 0, 0, 0, 0, 0, 0, 0, 1, 0, 0, 10, 0, 0, 1, 0, 0, 0, 0,
         0, 0, 0, 0, 1, 2, 0, 0] =
      some ⟨some 167772161, [PingWarning.corruptPacket]⟩ := by
  have h := onReadyRead_checksumWarnOnly 258
    [69, 0, 0, 0, 0, 0, 0, 0, 0, 1, 0, 0, 10, 0, 0, 1, 0, 0, 0, 0,
     0, 0, 0, 0, 1, 2, 0, 0]
    (by decide) (by decide) (by decide) (by decide) (by decide) (by decide)
    (by decide) (by decide) (by decide) (by decide)
  exact h

/-- The packet used to refute the logging half of C3: well-formed IPv4.
ICMP header all zero, so its checksum validation is nonzero (logging the
corruption warning) and its embedded identifier is 0. -/
def c3pkt : List Nat :=
  [69, 0, 0, 0, 0, 0, 0, 0, 0, 1, 0, 0, 0, 0, 0, 0, 0, 0, 0, 0,
   0, 0, 0, 0, 0, 0, 0, 0]

/-- C3 as stated is false: this datagram passes the length, version and
protocol checks and is rejected by the identifier filter (embedded
identifier 0 ≠ 5), yet something IS logged — the checksum-corruption
warning from the earlier validation step. -/
theorem replyFilter_counterexample :
    (20 ≤ c3pkt.length ∧ c3pkt.getD 0 0 / 16 = 4 ∧
      20 ≤ c3pkt.getD 0 0 % 16 * 4 ∧ c3pkt.getD 0 0 % 16 * 4 ≤ c3pkt.length ∧
      8 ≤ c3pkt.length - c3pkt.getD 0 0 % 16 * 4 ∧ c3pkt.getD 9 0 = 1) ∧
    c3pkt.getD (c3pkt.getD 0 0 % 16 * 4 + 4) 0 * 256 +
      c3pkt.getD (c3pkt.getD 0 0 % 16 * 4 + 5) 0 ≠ 5 ∧
    onReadyRead 5 c3pkt = some ⟨none, [PingWarning.corruptPacket]⟩ ∧
    [PingWarning.corruptPacket] ≠ ([] : List PingWarning) := by decide

/-- C3 amended: a datagram passing the length/version/protocol checks whose
ICMP type, code or embedded identifier does not match is dropped with no
`receivedReply` event, and the rejection itself logs nothing — when the
ICMP checksum validated to zero, nothing at all is logged (a failing
checksum has already logged its own corruption warning before this filter).
Consequently a prober never emits for a datagram carrying an embedded
identifier other than its own, so two probers with different identifiers
never cross-fire (second conjunct, which holds for every input datagram). -/
theorem replyFilter_silent (identifier : Nat) :
    (∀ pkt : List Nat, 20 ≤ pkt.length → pkt.getD 0 0 / 16 = 4 →
      20 ≤ pkt.getD 0 0 % 16 * 4 → pkt.getD 0 0 % 16 * 4 ≤ pkt.length →
      8 ≤ pkt.length - pkt.getD 0 0 % 16 * 4 → pkt.getD 9 0 = 1 →
      calcChecksum ((pkt.drop (pkt.getD 0 0 % 16 * 4)).take
        (pkt.length - pkt.getD 0 0 % 16 * 4)) = 0 →
      (pkt.getD (pkt.getD 0 0 % 16 * 4) 0 ≠ 0 ∨
        pkt.getD (pkt.getD 0 0 % 16 * 4 + 1) 0 ≠ 0 ∨
        pkt.getD (pkt.getD 0 0 % 16 * 4 + 4) 0 * 256 +
          pkt.getD (pkt.getD 0 0 % 16 * 4 + 5) 0 ≠ identifier) →
      onReadyRead identifier pkt = some ⟨none, []⟩) ∧
    (∀ pkt : List Nat,
      pkt.getD (pkt.getD 0 0 % 16 * 4 + 4) 0 * 256 +
        pkt.getD (pkt.getD 0 0 % 16 * 4 + 5) 0 ≠ identifier →
      (onReadyRead identifier pkt).map RecvOutcome.event = some none) := by
  constructor
  · intro pkt h1 h2 h3 h4 h5 h6 hck hmm
    rw [onReadyRead_eq_recvSpec]
    simp only [recvSpec]
    rw [if_neg (by omega), if_neg (by omega), if_neg (by omega),
      if_neg (by omega), if_pos hmm, if_neg (by omega)]
  · intro pkt hid
    rw [onReadyRead_eq_recvSpec]
    have hev : (recvSpec identifier pkt).event = none := by
      simp only [recvSpec]
      split_ifs <;> first | rfl | (exfalso; omega)
    simp [hev]

/-- Concrete instantiation: a well-formed datagram with a valid ICMP
checksum and embedded identifier 0, handed to a prober with identifier 5,
is dropped with no event and no warning. -/
theorem replyFilter_silent_witness :
    (20 ≤ (c3pkt.take 20 ++ [0, 0, 255, 255, 0, 0, 0, 0]).length ∧
      calcChecksum (((c3pkt.take 20 ++ [0, 0, 255, 255, 0, 0, 0, 0]).drop 20).take 8) = 0 ∧
      (c3pkt.take 20 ++ [0, 0, 255, 255, 0, 0, 0, 0]).getD 24 0 * 256 +
        (c3pkt.take 20 ++ [0, 0, 255, 255, 0, 0, 0, 0]).getD 25 0 ≠ 5) ∧
    onReadyRead 5 (c3pkt.take 20 ++ [0, 0, 255, 255, 0, 0, 0, 0]) =
      some ⟨none, []⟩ ∧
    (onReadyRead 5 (c3pkt.take 20 ++ [0, 0, 255, 255, 0, 0, 0, 0])).map
      RecvOutcome.event = some none := by
  refine ⟨by decide, ?_, ?_⟩
  · exact (replyFilter_silent 5).1 (c3pkt.take 20 ++ [0, 0, 255, 255, 0, 0, 0, 0])
      (by decide) (by decide) (by decide) (by decide) (by decide) (by decide)
      (by decide) (by decide)
  · exact (replyFilter_silent 5).2 (c3pkt.take 20 ++ [0, 0, 255, 255, 0, 0, 0, 0])
      (by decide)

end PosixPing
